import Mathlib

/-
Verification of the Gmail-to-Sheets batch utility (gmail.py).

The file embeds the pure normalization core of the program (header lookup,
base64url body decoding, HTML stripping, MIME-tree body extraction) and the
orchestration loops (pagination, per-message row collection) as executable
Lean definitions, and proves the specification claims about them.

Python library calls are modelled by executable Lean functions that follow
their documented semantics:
  - base64.urlsafe_b64decode: translate the URL-safe alphabet, then decode
    following binascii.a2b_base64 in non-strict mode (non-alphabet bytes are
    discarded, padding ends the final quad, a dangling quad is an error);
    an exception is modelled as the value none.
  - bytes.decode("utf-8", errors="ignore"): total UTF-8 decoding that skips
    maximal invalid subparts instead of failing.
  - str.strip / regex whitespace: Python whitespace character class.
  - str.lower: modelled characterwise with Char.toLower (sufficient for the
    ASCII header names the program compares).
Exceptions escaping a modelled function are represented by Option: none is a
raised exception, some x a normal return of x.
-/

/-- Python whitespace class, as used by str.strip and by the regex class \s
on str patterns: ASCII whitespace, the information separators, NEL, NBSP and
the Unicode space separators. -/
def pyIsSpace (c : Char) : Bool :=
  let n := c.toNat
  decide ((9 ≤ n ∧ n ≤ 13) ∨ (28 ≤ n ∧ n ≤ 31) ∨ n = 32 ∨ n = 0x85 ∨ n = 0xa0 ∨
    n = 0x1680 ∨ (0x2000 ≤ n ∧ n ≤ 0x200a) ∨ n = 0x2028 ∨ n = 0x2029 ∨
    n = 0x202f ∨ n = 0x205f ∨ n = 0x3000)

/-- Python str.strip(): drop leading and trailing whitespace. -/
def pyStrip (s : String) : String :=
  String.mk (((s.data.dropWhile fun c => pyIsSpace c).reverse.dropWhile
    fun c => pyIsSpace c).reverse)

/-- Python str.lower(), modelled characterwise (ASCII case folding). -/
def lowerStr (s : String) : String := String.mk (s.data.map Char.toLower)

/-- Characterwise comparison underlying strStartsWith. -/
def listStarts : List Char → List Char → Bool
  | [], _ => true
  | _ :: _, [] => false
  | p :: ps, c :: cs => p = c && listStarts ps cs

/-- Python str.startswith. -/
def strStartsWith (s pre : String) : Bool := listStarts pre.data s.data

/-- Truthiness of an optional string field of a provider object: the Python
test `if x:` on a value obtained by dict.get is true when the key is present
and its value is a non-empty string. -/
abbrev truthyStr (d : Option String) : Prop := d.getD "" ≠ ""

/-- Value of one character of the standard base64 alphabet, none for every
other character (non-alphabet input bytes are discarded by the non-strict
decoder). -/
def b64val (c : Char) : Option Nat :=
  if 'A' ≤ c ∧ c ≤ 'Z' then some (c.toNat - 65)
  else if 'a' ≤ c ∧ c ≤ 'z' then some (c.toNat - 97 + 26)
  else if '0' ≤ c ∧ c ≤ '9' then some (c.toNat - 48 + 52)
  else if c = '+' then some 62
  else if c = '/' then some 63
  else none

/-- The character translation performed by base64.urlsafe_b64decode before
decoding: '-' becomes '+' and '_' becomes '/'. -/
def urlsafeChar (c : Char) : Char :=
  if c = '-' then '+' else if c = '_' then '/' else c

/-- Core of binascii.a2b_base64 in non-strict mode, as invoked by
base64.b64decode: accumulate six bits per alphabet character and emit a byte
whenever eight bits are available; skip non-alphabet characters; a pad
character closing the final quad ends decoding successfully; leftover bits at
the end of input are a padding error (modelled as none). The accumulator
`acc` collects output bytes in reverse. -/
def a2b_aux : List Char → Nat → Nat → Nat → Nat → List Nat → Option (List Nat)
  | [], _, leftbits, _, _, acc =>
      if leftbits ≠ 0 then none else some acc.reverse
  | c :: rest, leftchar, leftbits, quad_pos, pads, acc =>
      if c = '=' then
        if 2 ≤ quad_pos then
          if 4 ≤ quad_pos + (pads + 1) then some acc.reverse
          else a2b_aux rest leftchar leftbits quad_pos (pads + 1) acc
        else a2b_aux rest leftchar leftbits quad_pos pads acc
      else
        match b64val c with
        | none => a2b_aux rest leftchar leftbits quad_pos pads acc
        | some v =>
            let lc := leftchar * 64 + v
            let lb := leftbits + 6
            let qp := (quad_pos + 1) % 4
            if 8 ≤ lb then
              a2b_aux rest (lc % 2 ^ (lb - 8)) (lb - 8) qp pads
                ((lc / 2 ^ (lb - 8)) % 256 :: acc)
            else a2b_aux rest lc lb qp pads acc

/-- binascii.a2b_base64 (non-strict) on a character sequence. -/
def a2b_base64 (cs : List Char) : Option (List Nat) := a2b_aux cs 0 0 0 0 []

/-- Worker for UTF-8 decoding with errors="ignore". The fuel argument makes
the recursion structural; every step consumes at least one input byte, so
fuel equal to the input length always suffices. -/
def utf8Aux : Nat → List Nat → List Char
  | 0, _ => []
  | _ + 1, [] => []
  | fuel + 1, b :: rest =>
    if b < 0x80 then Char.ofNat b :: utf8Aux fuel rest
    else if b < 0xC2 then utf8Aux fuel rest
    else if b ≤ 0xDF then
      match rest with
      | [] => []
      | b2 :: rest2 =>
        if 0x80 ≤ b2 ∧ b2 ≤ 0xBF then
          Char.ofNat ((b - 0xC0) * 64 + (b2 - 0x80)) :: utf8Aux fuel rest2
        else utf8Aux fuel rest
    else if b ≤ 0xEF then
      match rest with
      | [] => []
      | b2 :: rest2 =>
        if (if b = 0xE0 then 0xA0 ≤ b2 ∧ b2 ≤ 0xBF
            else if b = 0xED then 0x80 ≤ b2 ∧ b2 ≤ 0x9F
            else 0x80 ≤ b2 ∧ b2 ≤ 0xBF) then
          match rest2 with
          | [] => []
          | b3 :: rest3 =>
            if 0x80 ≤ b3 ∧ b3 ≤ 0xBF then
              Char.ofNat ((b - 0xE0) * 4096 + (b2 - 0x80) * 64 + (b3 - 0x80)) ::
                utf8Aux fuel rest3
            else utf8Aux fuel rest2
        else utf8Aux fuel rest
    else if b ≤ 0xF4 then
      match rest with
      | [] => []
      | b2 :: rest2 =>
        if (if b = 0xF0 then 0x90 ≤ b2 ∧ b2 ≤ 0xBF
            else if b = 0xF4 then 0x80 ≤ b2 ∧ b2 ≤ 0x8F
            else 0x80 ≤ b2 ∧ b2 ≤ 0xBF) then
          match rest2 with
          | [] => []
          | b3 :: rest3 =>
            if 0x80 ≤ b3 ∧ b3 ≤ 0xBF then
              match rest3 with
              | [] => []
              | b4 :: rest4 =>
                if 0x80 ≤ b4 ∧ b4 ≤ 0xBF then
                  Char.ofNat ((b - 0xF0) * 262144 + (b2 - 0x80) * 4096 +
                    (b3 - 0x80) * 64 + (b4 - 0x80)) :: utf8Aux fuel rest4
                else utf8Aux fuel rest3
            else utf8Aux fuel rest2
        else utf8Aux fuel rest
    else utf8Aux fuel rest

/-- bytes.decode("utf-8", errors="ignore"): decode UTF-8, skipping the
maximal invalid subpart at each decoding error instead of failing. A
truncated sequence at the end of input is likewise skipped. -/
def utf8DecodeIgnore (bs : List Nat) : List Char := utf8Aux bs.length bs

/-- gmail.py decode_part: URL-safe base64 decoding of the body data followed
by UTF-8 decoding with errors="ignore"; none models a raised decoding
exception (incorrect base64 padding). -/
def decode_part (data_b64 : String) : Option String :=
  (a2b_base64 (data_b64.data.map urlsafeChar)).map
    fun bs => String.mk (utf8DecodeIgnore bs)

/-- Greedy match of the regex piece \s* : skip Python whitespace. -/
def afterWs : List Char → List Char
  | [] => []
  | c :: rest => if pyIsSpace c then afterWs rest else c :: rest

/-- Greedy match of the regex class run [ \t]+ (without the first character,
which the caller has already tested): skip spaces and tabs. -/
def afterHTab : List Char → List Char
  | [] => []
  | c :: rest => if c = ' ' ∨ c = '\t' then afterHTab rest else c :: rest

/-- Case-insensitive literal match: if the input starts with the given
(lowercase) pattern up to ASCII case, return the input after it. -/
def startsWithCi : List Char → List Char → Option (List Char)
  | [], cs => some cs
  | _ :: _, [] => none
  | p :: ps, c :: cs => if c.toLower = p then startsWithCi ps cs else none

/-- Skip to just after the first character matching the given test, as the
lazy regex piece .*?x does under DOTALL; none when there is no match. -/
def dropAfterGt : List Char → Option (List Char)
  | [] => none
  | c :: rest => if c = '>' then some rest else dropAfterGt rest

/-- Scan for the first occurrence of the closing tag `` </TAG> `` matched
case-insensitively (the backreference of the script/style regex under the
IGNORECASE flag), returning the input just after it. -/
def dropAfterCloseTag (tag : List Char) : List Char → Option (List Char)
  | [] => none
  | c :: rest =>
    if c = '<' then
      match rest with
      | '/' :: rest2 =>
        match startsWithCi tag rest2 with
        | some ('>' :: rem) => some rem
        | _ => dropAfterCloseTag tag rest
      | _ => dropAfterCloseTag tag rest
    else dropAfterCloseTag tag rest

/-- Match of the script/style regex at the current position: an opening tag
whose name is script or style (case-insensitive, tried in that order), a
first closing angle bracket (lazy .*?), then the first matching closing tag
(lazy .*? before the backreference). Returns the input after the whole
match. -/
def matchScriptStyleAt : List Char → Option (List Char)
  | '<' :: rest =>
    (match startsWithCi ['s', 'c', 'r', 'i', 'p', 't'] rest with
     | some rest2 =>
       (match dropAfterGt rest2 with
        | some rest3 => dropAfterCloseTag ['s', 'c', 'r', 'i', 'p', 't'] rest3
        | none => none)
     | none =>
       match startsWithCi ['s', 't', 'y', 'l', 'e'] rest with
       | some rest2 =>
         (match dropAfterGt rest2 with
          | some rest3 => dropAfterCloseTag ['s', 't', 'y', 'l', 'e'] rest3
          | none => none)
       | none => none)
  | _ => none

/-- First rewrite of strip_html: delete every match of the script/style
regex, scanning left to right. Fuel makes the recursion structural; a match
always consumes at least one character, so fuel equal to the input length
suffices. -/
def sub1Aux : Nat → List Char → List Char
  | 0, _ => []
  | _ + 1, [] => []
  | fuel + 1, c :: rest =>
    match matchScriptStyleAt (c :: rest) with
    | some rem => sub1Aux fuel rem
    | none => c :: sub1Aux fuel rest

def sub1 (cs : List Char) : List Char := sub1Aux cs.length cs

/-- Match of the line-break-element regex at the current position: the
literal lowercase opening, optional whitespace, an optional slash and the
closing angle bracket. -/
def matchBrAt : List Char → Option (List Char)
  | '<' :: 'b' :: 'r' :: rest =>
    (match afterWs rest with
     | '/' :: '>' :: rem => some rem
     | '>' :: rem => some rem
     | _ => none)
  | _ => none

/-- Second rewrite of strip_html: replace each line-break element with a
single newline. -/
def sub2Aux : Nat → List Char → List Char
  | 0, _ => []
  | _ + 1, [] => []
  | fuel + 1, c :: rest =>
    match matchBrAt (c :: rest) with
    | some rem => '\n' :: sub2Aux fuel rem
    | none => c :: sub2Aux fuel rest

def sub2 (cs : List Char) : List Char := sub2Aux cs.length cs

/-- Match of the paragraph-closing regex at the current position: the
literal lowercase closing tag with optional whitespace before the closing
angle bracket. -/
def matchPCloseAt : List Char → Option (List Char)
  | '<' :: '/' :: 'p' :: rest =>
    (match afterWs rest with
     | '>' :: rem => some rem
     | _ => none)
  | _ => none

/-- Third rewrite of strip_html: replace each paragraph-closing element with
a double newline. -/
def sub3Aux : Nat → List Char → List Char
  | 0, _ => []
  | _ + 1, [] => []
  | fuel + 1, c :: rest =>
    match matchPCloseAt (c :: rest) with
    | some rem => '\n' :: '\n' :: sub3Aux fuel rem
    | none => c :: sub3Aux fuel rest

def sub3 (cs : List Char) : List Char := sub3Aux cs.length cs

/-- Fourth rewrite of strip_html: delete every remaining tag, that is every
opening angle bracket through the next closing one (lazy dot under DOTALL);
an opening bracket without a later closing one stays. -/
def sub4Aux : Nat → List Char → List Char
  | 0, _ => []
  | _ + 1, [] => []
  | fuel + 1, c :: rest =>
    if c = '<' then
      match dropAfterGt rest with
      | some rem => sub4Aux fuel rem
      | none => c :: sub4Aux fuel rest
    else c :: sub4Aux fuel rest

def sub4 (cs : List Char) : List Char := sub4Aux cs.length cs

/-- Match at the current position of a run of spaces and tabs followed by a
newline (the greedy run must end exactly at a newline). -/
def matchHTabNlAt : List Char → Option (List Char)
  | [] => none
  | c :: rest =>
    if c = ' ' ∨ c = '\t' then
      match afterHTab rest with
      | '\n' :: rem => some rem
      | _ => none
    else none

/-- Fifth rewrite of strip_html: collapse trailing horizontal whitespace
before a newline into the newline alone. -/
def sub5Aux : Nat → List Char → List Char
  | 0, _ => []
  | _ + 1, [] => []
  | fuel + 1, c :: rest =>
    match matchHTabNlAt (c :: rest) with
    | some rem => '\n' :: sub5Aux fuel rem
    | none => c :: sub5Aux fuel rest

def sub5 (cs : List Char) : List Char := sub5Aux cs.length cs

/-- gmail.py strip_html: the five regex rewrites in source order followed by
a final whole-string strip. -/
def strip_html (html : String) : String :=
  pyStrip (String.mk (sub5 (sub4 (sub3 (sub2 (sub1 html.data))))))

/-- One header object of a message: name and value fields are both optional
in the provider response, read with dict.get and a default. -/
structure Header where
  name : Option String
  value : Option String

mutual

/-- One node of the MIME payload tree as the provider returns it: the
mimeType string (dict.get with default empty string), the inline body data
(payload.get of body then of data: none models an absent field) and the
headers list; the last component records whether the parts key is present
and, when it is, the ordered child list. -/
inductive Payload where
  | mk : String → Option String → List Header → PartsOpt → Payload

/-- Presence or absence of the parts key of a payload dict. -/
inductive PartsOpt where
  | pnone : PartsOpt
  | psome : PayloadList → PartsOpt

/-- Ordered list of child parts. -/
inductive PayloadList where
  | pnil : PayloadList
  | pcons : Payload → PayloadList → PayloadList

end

def Payload.mimeType : Payload → String
  | .mk mt _ _ _ => mt

/-- The inline body payload, payload.get of body then of data. -/
def Payload.bodyData : Payload → Option String
  | .mk _ d _ _ => d

def Payload.headers : Payload → List Header
  | .mk _ _ hs _ => hs

def Payload.parts : Payload → PartsOpt
  | .mk _ _ _ ps => ps

def PayloadList.append : PayloadList → PayloadList → PayloadList
  | .pnil, l => l
  | .pcons p rest, l => .pcons p (rest.append l)

def PayloadList.toList : PayloadList → List Payload
  | .pnil => []
  | .pcons p rest => p :: rest.toList

mutual

/-- gmail.py extract_plain_text_from_payload: return the decoded stripped
text of a text/plain part with truthy body data; else the stripped HTML of a
text/html part with truthy body data; else, when the parts key is present,
walk the children; else the empty string. none models a raised exception
(a base64 padding error escaping decode_part). -/
def extract_plain_text_from_payload : (p : Payload) → Option String
  | .mk mt d _ ps =>
    if mt = "text/plain" ∧ truthyStr d then (decode_part (d.getD "")).map pyStrip
    else if mt = "text/html" ∧ truthyStr d then
      (decode_part (d.getD "")).map strip_html
    else
      match ps with
      | .psome l =>
        (match loopParts l "" "" with
         | none => none
         | some (.inl s) => some s
         | some (.inr (pc, hc)) =>
             some (if pc ≠ "" then pc else if hc ≠ "" then hc else ""))
      | .pnone => some ""
  termination_by structural p => p

/-- The child loop of extract_plain_text_from_payload, carrying the plain
and html candidate variables: a left value is an early return (a multipart
child whose recursive extraction was non-empty), a right value the candidate
pair after the loop ran to completion; none models a raised exception. -/
def loopParts : (l : PayloadList) → String → String → Option (String ⊕ String × String)
  | .pnil, pc, hc => some (.inr (pc, hc))
  | .pcons part rest, pc, hc =>
    if strStartsWith part.mimeType "multipart/" then
      match extract_plain_text_from_payload part with
      | none => none
      | some sub => if sub ≠ "" then some (.inl sub) else loopParts rest pc hc
    else if part.mimeType = "text/plain" ∧ truthyStr part.bodyData then
      match decode_part (part.bodyData.getD "") with
      | none => none
      | some t => loopParts rest (if pyStrip t ≠ "" then pyStrip t else pc) hc
    else if part.mimeType = "text/html" ∧ truthyStr part.bodyData then
      match decode_part (part.bodyData.getD "") with
      | none => none
      | some t =>
          loopParts rest pc (if strip_html t ≠ "" then strip_html t else hc)
    else loopParts rest pc hc
  termination_by structural l => l

end

/-- gmail.py get_header: scan the header list in order and return the value
of the first header whose name matches the looked-up name case-insensitively;
missing name or value fields read as the empty string; return the empty
string when nothing matches. -/
def get_header : List Header → String → String
  | [], _ => ""
  | h :: rest, name =>
    if lowerStr (h.name.getD "") = lowerStr name then h.value.getD ""
    else get_header rest name

/-- A fetched message as the provider returns it for format full: the
payload dict (dict.get with default of the empty dict, modelled by none) and
the preview snippet. -/
structure Message where
  payload : Option Payload
  snippet : Option String

/-- The payload dict default: an empty dict has empty mimeType, no body
data, no headers and no parts key. -/
def emptyPayload : Payload := .mk "" none [] .pnone

/-- gmail.py fetch_message_fields on an already-fetched message: subject and
sender by case-insensitive header lookup on the payload headers, body from
the extractor stripped, with the snippet (or the empty string) stripped and
substituted when the extracted body is empty. none models a raised
exception escaping the extractor. -/
def fetch_message_fields (msg : Message) : Option (String × String × String) :=
  let payload := msg.payload.getD emptyPayload
  let subject := get_header payload.headers "Subject"
  let sender := get_header payload.headers "From"
  match extract_plain_text_from_payload payload with
  | none => none
  | some raw =>
    let body_text := pyStrip raw
    let body_text := if body_text = "" then pyStrip (msg.snippet.getD "") else body_text
    some (subject, sender, body_text)

/-- The per-message loop of main: call the field extractor for each listed
identifier in order and append a three-column row on success; a fetch that
raises the remote-API error (modelled by the abstract fetch function
returning none) is skipped, producing no row, and the loop continues. -/
def collectRows (fetchFn : String → Option (String × String × String)) :
    List String → List (List String)
  | [] => []
  | mid :: rest =>
    match fetchFn mid with
    | some (subject, sender, body) => [subject, sender, body] :: collectRows fetchFn rest
    | none => collectRows fetchFn rest

/-- One page of the message-list response: the identifiers of the messages
field (dict.get with default of the empty list) and the optional
continuation token. -/
structure Page where
  messageIds : List String
  nextPageToken : Option String

/-- gmail.py list_message_ids driven by a synthetic page sequence, one page
per provider call in order: extend the accumulated identifiers with the
page's identifiers, then stop as soon as the page's continuation token is
missing or empty (Python falsy), else continue with the next page. -/
def list_message_ids : List Page → List String
  | [] => []
  | pg :: rest =>
    pg.messageIds ++ (if pg.nextPageToken.getD "" = "" then [] else list_message_ids rest)

/-- Sequencing of the child loop: an exception or an early return of the
first segment decides the whole loop, otherwise the second segment starts
from the accumulated candidates. -/
def seqLoop (r : Option (String ⊕ String × String))
    (k : String → String → Option (String ⊕ String × String)) :
    Option (String ⊕ String × String) :=
  match r with
  | none => none
  | some (.inl s) => some (.inl s)
  | some (.inr (pc, hc)) => k pc hc

/-- The return value extract_plain_text_from_payload builds from the result
of the child loop. -/
def finishLoop : Option (String ⊕ String × String) → Option String
  | none => none
  | some (.inl s) => some s
  | some (.inr (pc, hc)) => some (if pc ≠ "" then pc else if hc ≠ "" then hc else "")

/-- One iteration of the child loop on the candidate pair, in the case where
the iteration neither returns early nor raises: the branch structure of
loopParts with the decode result read off totally. -/
def candStep (part : Payload) (pc hc : String) : String × String :=
  if strStartsWith part.mimeType "multipart/" then (pc, hc)
  else if part.mimeType = "text/plain" ∧ truthyStr part.bodyData then
    ((if pyStrip ((decode_part (part.bodyData.getD "")).getD "") ≠ "" then
        pyStrip ((decode_part (part.bodyData.getD "")).getD "")
      else pc), hc)
  else if part.mimeType = "text/html" ∧ truthyStr part.bodyData then
    (pc, (if strip_html ((decode_part (part.bodyData.getD "")).getD "") ≠ "" then
            strip_html ((decode_part (part.bodyData.getD "")).getD "")
          else hc))
  else (pc, hc)

/-- The candidate pair after the whole child loop, when no early return and
no exception occur. -/
def candFold : PayloadList → String → String → String × String
  | .pnil, pc, hc => (pc, hc)
  | .pcons part rest, pc, hc =>
    candFold rest (candStep part pc hc).1 (candStep part pc hc).2

/-- The non-empty decoded stripped texts of the text/plain leaf children
with truthy body data, in child order. -/
def childPlainTexts (l : PayloadList) : List String :=
  l.toList.filterMap fun part =>
    if strStartsWith part.mimeType "multipart/" then none
    else if part.mimeType = "text/plain" ∧ truthyStr part.bodyData then
      (if pyStrip ((decode_part (part.bodyData.getD "")).getD "") ≠ "" then
         some (pyStrip ((decode_part (part.bodyData.getD "")).getD ""))
       else none)
    else none

/-- The non-empty stripped-HTML texts of the text/html leaf children with
truthy body data, in child order. -/
def childHtmlTexts (l : PayloadList) : List String :=
  l.toList.filterMap fun part =>
    if strStartsWith part.mimeType "multipart/" then none
    else if part.mimeType = "text/plain" ∧ truthyStr part.bodyData then none
    else if part.mimeType = "text/html" ∧ truthyStr part.bodyData then
      (if strip_html ((decode_part (part.bodyData.getD "")).getD "") ≠ "" then
         some (strip_html ((decode_part (part.bodyData.getD "")).getD ""))
       else none)
    else none

theorem extract_psome (mt : String) (d : Option String) (hdrs : List Header)
    (l : PayloadList) (h1 : ¬(mt = "text/plain" ∧ truthyStr d))
    (h2 : ¬(mt = "text/html" ∧ truthyStr d)) :
    extract_plain_text_from_payload (.mk mt d hdrs (.psome l)) =
      finishLoop (loopParts l "" "") := by
  rw [extract_plain_text_from_payload]
  rw [if_neg h1, if_neg h2]
  rcases hl : loopParts l "" "" with - | r
  · simp [finishLoop]
  · rcases r with s | ⟨pc, hc⟩ <;> simp [finishLoop]

theorem multipart_not_text (mt : String)
    (h : strStartsWith mt "multipart/" = true) :
    mt ≠ "text/plain" ∧ mt ≠ "text/html" := by
  constructor <;> · rintro rfl; revert h; decide

theorem loopParts_append (l1 : PayloadList) :
    ∀ (l2 : PayloadList) (pc hc : String),
      loopParts (l1.append l2) pc hc =
        seqLoop (loopParts l1 pc hc) (fun a b => loopParts l2 a b) := by
  match l1 with
  | .pnil => intro l2 pc hc; simp [PayloadList.append, loopParts, seqLoop]
  | .pcons part rest =>
    intro l2 pc hc
    rw [PayloadList.append]
    rw [loopParts, loopParts]
    by_cases hm : strStartsWith part.mimeType "multipart/" = true
    · simp only [hm, if_true]
      rcases hx : extract_plain_text_from_payload part with - | sub
      · simp [seqLoop]
      · simp only []
        by_cases hs : sub = ""
        · simp [hs, loopParts_append rest l2]
        · simp [hs, seqLoop]
    · simp only [hm]
      by_cases hp : part.mimeType = "text/plain" ∧ truthyStr part.bodyData
      · obtain ⟨hpm, hpd⟩ := hp
        rcases hx : decode_part (part.bodyData.getD "") with - | t
        · simp [hpm, hpd, hx, seqLoop]
        · simp [hpm, hpd, hx, loopParts_append rest l2]
      · by_cases hh : part.mimeType = "text/html" ∧ truthyStr part.bodyData
        · obtain ⟨hhm, hhd⟩ := hh
          rcases hx : decode_part (part.bodyData.getD "") with - | t
          · simp [hp, hhm, hhd, hx, seqLoop]
          · simp [hp, hhm, hhd, hx, loopParts_append rest l2]
        · simp only [hp, hh, if_false]
          exact loopParts_append rest l2 pc hc
termination_by structural l1

theorem loopParts_no_short (l : PayloadList) :
    ∀ (pc hc : String),
    (∀ part ∈ l.toList, strStartsWith part.mimeType "multipart/" = true →
      extract_plain_text_from_payload part = some "") →
    (∀ part ∈ l.toList,
      (part.mimeType = "text/plain" ∨ part.mimeType = "text/html") →
      truthyStr part.bodyData → (decode_part (part.bodyData.getD "")).isSome) →
    loopParts l pc hc = some (.inr (candFold l pc hc)) := by
  match l with
  | .pnil => intro pc hc _ _; simp [loopParts, candFold]
  | .pcons part rest =>
    intro pc hc hmp hdec
    have hmp' : ∀ p ∈ rest.toList, strStartsWith p.mimeType "multipart/" = true →
        extract_plain_text_from_payload p = some "" := by
      intro p hp; exact hmp p (by simp [PayloadList.toList, hp])
    have hdec' : ∀ p ∈ rest.toList,
        (p.mimeType = "text/plain" ∨ p.mimeType = "text/html") →
        truthyStr p.bodyData → (decode_part (p.bodyData.getD "")).isSome := by
      intro p hp; exact hdec p (by simp [PayloadList.toList, hp])
    have hpartmem : part ∈ (PayloadList.pcons part rest).toList := by
      simp [PayloadList.toList]
    have ihgen : ∀ a b, loopParts rest a b = some (.inr (candFold rest a b)) :=
      fun a b => loopParts_no_short rest a b hmp' hdec'
    rw [loopParts, candFold]
    simp only [candStep]
    by_cases hm : strStartsWith part.mimeType "multipart/" = true
    · rw [if_pos hm, if_pos hm, hmp part hpartmem hm]
      simp [ihgen]
    · rw [if_neg hm, if_neg hm]
      by_cases hp : part.mimeType = "text/plain" ∧ truthyStr part.bodyData
      · have hiss := hdec part hpartmem (Or.inl hp.1) hp.2
        rcases hx : decode_part (part.bodyData.getD "") with - | t
        · rw [hx] at hiss; simp at hiss
        · rw [if_pos hp, if_pos hp]
          simp [ihgen]
      · rw [if_neg hp, if_neg hp]
        by_cases hh : part.mimeType = "text/html" ∧ truthyStr part.bodyData
        · have hiss := hdec part hpartmem (Or.inr hh.1) hh.2
          rcases hx : decode_part (part.bodyData.getD "") with - | t
          · rw [hx] at hiss; simp at hiss
          · rw [if_pos hh, if_pos hh]
            simp [ihgen]
        · rw [if_neg hh, if_neg hh]
          exact ihgen pc hc
termination_by structural l

theorem childPlainTexts_cons (part : Payload) (rest : PayloadList) :
    childPlainTexts (.pcons part rest) =
      (if strStartsWith part.mimeType "multipart/" then childPlainTexts rest
       else if part.mimeType = "text/plain" ∧ truthyStr part.bodyData then
         (if pyStrip ((decode_part (part.bodyData.getD "")).getD "") ≠ "" then
            pyStrip ((decode_part (part.bodyData.getD "")).getD "") :: childPlainTexts rest
          else childPlainTexts rest)
       else childPlainTexts rest) := by
  simp only [childPlainTexts, PayloadList.toList, List.filterMap_cons]
  split_ifs <;> simp

theorem childHtmlTexts_cons (part : Payload) (rest : PayloadList) :
    childHtmlTexts (.pcons part rest) =
      (if strStartsWith part.mimeType "multipart/" then childHtmlTexts rest
       else if part.mimeType = "text/plain" ∧ truthyStr part.bodyData then
         childHtmlTexts rest
       else if part.mimeType = "text/html" ∧ truthyStr part.bodyData then
         (if strip_html ((decode_part (part.bodyData.getD "")).getD "") ≠ "" then
            strip_html ((decode_part (part.bodyData.getD "")).getD "") :: childHtmlTexts rest
          else childHtmlTexts rest)
       else childHtmlTexts rest) := by
  simp only [childHtmlTexts, PayloadList.toList, List.filterMap_cons]
  split_ifs <;> simp

theorem candFold_eq (l : PayloadList) :
    ∀ (pc hc : String),
      candFold l pc hc =
        ((childPlainTexts l).getLastD pc, (childHtmlTexts l).getLastD hc) := by
  match l with
  | .pnil => intro pc hc; simp [candFold, childPlainTexts, childHtmlTexts, PayloadList.toList]
  | .pcons part rest =>
    intro pc hc
    have ih := candFold_eq rest
    rw [candFold, childPlainTexts_cons, childHtmlTexts_cons]
    simp only [candStep]
    by_cases hm : strStartsWith part.mimeType "multipart/" = true
    · rw [if_pos hm, if_pos hm, if_pos hm]
      simpa using ih pc hc
    · rw [if_neg hm, if_neg hm, if_neg hm]
      by_cases hp : part.mimeType = "text/plain" ∧ truthyStr part.bodyData
      · rw [if_pos hp, if_pos hp, if_pos hp]
        by_cases ht : pyStrip ((decode_part (part.bodyData.getD "")).getD "") ≠ ""
        · rw [if_pos ht, if_pos ht, List.getLastD_cons]
          exact ih _ hc
        · rw [if_neg ht, if_neg ht]
          exact ih pc hc
      · rw [if_neg hp, if_neg hp, if_neg hp]
        by_cases hh : part.mimeType = "text/html" ∧ truthyStr part.bodyData
        · rw [if_pos hh, if_pos hh]
          by_cases ht : strip_html ((decode_part (part.bodyData.getD "")).getD "") ≠ ""
          · rw [if_pos ht, if_pos ht, List.getLastD_cons]
            exact ih pc _
          · rw [if_neg ht, if_neg ht]
            exact ih pc hc
        · rw [if_neg hh, if_neg hh]
          exact ih pc hc
termination_by structural l

theorem getLastD_ne_empty (L : List String) :
    ∀ (d : String), L ≠ [] → (∀ x ∈ L, x ≠ "") → L.getLastD d ≠ "" := by
  induction L with
  | nil => intro d h _; exact absurd rfl h
  | cons a L ih =>
    intro d _ hall
    rw [List.getLastD_cons]
    rcases L with - | ⟨b, L⟩
    · simpa using hall a (by simp)
    · exact ih a (by simp) (fun x hx => hall x (by simp [hx]))

theorem childPlainTexts_ne_empty (l : PayloadList) :
    ∀ x ∈ childPlainTexts l, x ≠ "" := by
  intro x hx
  simp only [childPlainTexts, List.mem_filterMap] at hx
  obtain ⟨a, _, hfa⟩ := hx
  by_cases hm : strStartsWith a.mimeType "multipart/" = true
  · rw [if_pos hm] at hfa; exact absurd hfa (by simp)
  · rw [if_neg hm] at hfa
    by_cases hp : a.mimeType = "text/plain" ∧ truthyStr a.bodyData
    · rw [if_pos hp] at hfa
      by_cases ht : pyStrip ((decode_part (a.bodyData.getD "")).getD "") ≠ ""
      · rw [if_pos ht] at hfa
        obtain rfl : _ = x := Option.some_injective _ hfa
        exact ht
      · rw [if_neg ht] at hfa; exact absurd hfa (by simp)
    · rw [if_neg hp] at hfa; exact absurd hfa (by simp)

theorem childHtmlTexts_ne_empty (l : PayloadList) :
    ∀ x ∈ childHtmlTexts l, x ≠ "" := by
  intro x hx
  simp only [childHtmlTexts, List.mem_filterMap] at hx
  obtain ⟨a, _, hfa⟩ := hx
  by_cases hm : strStartsWith a.mimeType "multipart/" = true
  · rw [if_pos hm] at hfa; exact absurd hfa (by simp)
  · rw [if_neg hm] at hfa
    by_cases hp : a.mimeType = "text/plain" ∧ truthyStr a.bodyData
    · rw [if_pos hp] at hfa; exact absurd hfa (by simp)
    · rw [if_neg hp] at hfa
      by_cases hh : a.mimeType = "text/html" ∧ truthyStr a.bodyData
      · rw [if_pos hh] at hfa
        by_cases ht : strip_html ((decode_part (a.bodyData.getD "")).getD "") ≠ ""
        · rw [if_pos ht] at hfa
          obtain rfl : _ = x := Option.some_injective _ hfa
          exact ht
        · rw [if_neg ht] at hfa; exact absurd hfa (by simp)
      · rw [if_neg hh] at hfa; exact absurd hfa (by simp)

theorem utf8Aux_cons_ascii (b : Nat) (hb : b < 128) (n : Nat) (l : List Nat) :
    utf8Aux (n + 1) (b :: l) = Char.ofNat b :: utf8Aux n l := by
  conv_lhs => rw [utf8Aux.eq_def]
  simp [hb]

theorem utf8Aux_cons_255 (n : Nat) (l : List Nat) :
    utf8Aux (n + 1) (255 :: l) = utf8Aux n l := by
  conv_lhs => rw [utf8Aux.eq_def]
  norm_num

theorem utf8DecodeIgnore_cons_ascii (b : Nat) (hb : b < 128) (l : List Nat) :
    utf8DecodeIgnore (b :: l) = Char.ofNat b :: utf8DecodeIgnore l := by
  rw [utf8DecodeIgnore, utf8DecodeIgnore, List.length_cons, utf8Aux_cons_ascii b hb]

theorem utf8DecodeIgnore_drop_255 (p : List Nat) :
    ∀ (q : List Nat), (∀ b ∈ p, b < 128) →
      utf8DecodeIgnore (p ++ 255 :: q) = utf8DecodeIgnore (p ++ q) := by
  induction p with
  | nil =>
    intro q _
    rw [List.nil_append, List.nil_append, utf8DecodeIgnore, List.length_cons,
      utf8Aux_cons_255]
    rfl
  | cons b p ih =>
    intro q hp
    have hb : b < 128 := hp b (by simp)
    rw [List.cons_append, List.cons_append,
      utf8DecodeIgnore_cons_ascii b hb, utf8DecodeIgnore_cons_ascii b hb,
      ih q (fun x hx => hp x (by simp [hx]))]

/-- C4, corrected: at the concrete body data Qf9C, whose base64 decoding is
the byte sequence 65, 255, 66, the invalid byte 255 is dropped by the
errors="ignore" decoding, so the result is AB and not the
replacement-character substitution the claim describes. -/
theorem decode_part_ignores_not_replaces :
    decode_part "Qf9C" = some "AB" ∧
    decode_part "Qf9C" ≠ some (String.mk ['A', Char.ofNat 0xFFFD, 'B']) := by
  decide

/-- C4, amended: for every inline body payload, decoding is URL-safe base64
followed by UTF-8 decoding in which undecodable bytes are dropped rather
than causing a failure: whenever the base64 step succeeds, the UTF-8 step
always yields a string; a byte that is not valid UTF-8 between ASCII bytes
is skipped, leaving the surrounding text; and the decoded text of a
text/plain part is returned trimmed. -/
theorem decode_part_total_drops_invalid :
    (∀ (s : String) (bs : List Nat), a2b_base64 (s.data.map urlsafeChar) = some bs →
       decode_part s = some (String.mk (utf8DecodeIgnore bs))) ∧
    (∀ (p q : List Nat), (∀ b ∈ p, b < 128) → (∀ b ∈ q, b < 128) →
       utf8DecodeIgnore (p ++ 255 :: q) = utf8DecodeIgnore (p ++ q)) ∧
    (∀ (s : String) (hdrs : List Header) (ps : PartsOpt), s ≠ "" →
       extract_plain_text_from_payload (.mk "text/plain" (some s) hdrs ps) =
         (decode_part s).map pyStrip) := by
  refine ⟨?_, ?_, ?_⟩
  · intro s bs h
    rw [decode_part, h]
    rfl
  · intro p q hp _
    exact utf8DecodeIgnore_drop_255 p q hp
  · intro s hdrs ps hs
    cases ps with
    | pnone => rw [extract_plain_text_from_payload, if_pos ⟨rfl, hs⟩]; rfl
    | psome l => rw [extract_plain_text_from_payload, if_pos ⟨rfl, hs⟩]; rfl

theorem decode_part_total_drops_invalid_witness :
    decode_part "Qf9C" = some (String.mk (utf8DecodeIgnore [65, 255, 66])) ∧
    utf8DecodeIgnore ([65] ++ 255 :: [66]) = utf8DecodeIgnore ([65] ++ [66]) ∧
    extract_plain_text_from_payload (.mk "text/plain" (some "IGhpIA==") [] .pnone) =
      (decode_part "IGhpIA==").map pyStrip := by
  refine ⟨?_, ?_, ?_⟩
  · exact decode_part_total_drops_invalid.1 "Qf9C" [65, 255, 66] (by decide)
  · exact decode_part_total_drops_invalid.2.1 [65] [66] (by decide) (by decide)
  · exact decode_part_total_drops_invalid.2.2 "IGhpIA==" [] .pnone (by decide)

/-- C9: the HTML Stripper maps the given paragraph fragment to the two
lines joined by a single newline: the line-break element becomes one
newline, the paragraph close becomes a double newline, the remaining tags
are removed and the trailing double newline is trimmed by the final strip;
the conjuncts exhibit the individual rewrites. -/
theorem strip_html_br_paragraph :
    strip_html "<p>Hello<br>World</p>" = "Hello\nWorld" ∧
    String.mk (sub2 "a<br>b".data) = "a\nb" ∧
    String.mk (sub3 "a</p>b".data) = "a\n\nb" ∧
    String.mk (sub4 "<p>y".data) = "y" := by
  decide

/-- C10: the header lookup scans the collection in order, matching names
case-insensitively, and returns the first matching header's value, so
duplicates later in the collection are ignored; it returns the empty string
when no name matches, and the value read is the empty string when the
matching header has no value field (the getD default). -/
theorem get_header_first_match_case_insensitive :
    (∀ (hs1 : List Header) (h : Header) (hs2 : List Header) (name : String),
       (∀ h' ∈ hs1, lowerStr (h'.name.getD "") ≠ lowerStr name) →
       lowerStr (h.name.getD "") = lowerStr name →
       get_header (hs1 ++ h :: hs2) name = h.value.getD "") ∧
    (∀ (hs : List Header) (name : String),
       (∀ h' ∈ hs, lowerStr (h'.name.getD "") ≠ lowerStr name) →
       get_header hs name = "") := by
  constructor
  · intro hs1 h hs2 name
    induction hs1 with
    | nil =>
      intro _ hmatch
      rw [List.nil_append, get_header, if_pos hmatch]
    | cons a rest ih =>
      intro hmiss hmatch
      have ha := hmiss a (by simp)
      rw [List.cons_append, get_header, if_neg ha]
      exact ih (fun h' hh => hmiss h' (by simp [hh])) hmatch
  · intro hs name
    induction hs with
    | nil => intro _; rw [get_header]
    | cons a rest ih =>
      intro hmiss
      have ha := hmiss a (by simp)
      rw [get_header, if_neg ha]
      exact ih (fun h' hh => hmiss h' (by simp [hh]))

theorem get_header_first_match_case_insensitive_witness :
    get_header [⟨some "From", some "f"⟩, ⟨some "SUBJECT", some "first"⟩,
      ⟨some "Subject", some "second"⟩] "Subject" = "first" ∧
    get_header [⟨some "From", some "f"⟩, ⟨some "Date", none⟩] "Subject" = "" := by
  constructor
  · have h := get_header_first_match_case_insensitive.1
      [⟨some "From", some "f"⟩] ⟨some "SUBJECT", some "first"⟩
      [⟨some "Subject", some "second"⟩] "Subject" (by decide) (by decide)
    exact h
  · exact get_header_first_match_case_insensitive.2
      [⟨some "From", some "f"⟩, ⟨some "Date", none⟩] "Subject" (by decide)

/-- C6: per-message failures are isolated and order preserved: for listed
identifiers A, B, C where fetching B raises the remote error, the collected
rows are exactly the rows of A and C in that order, B contributing no row;
in general the row list is the in-order filter-map of the fetch outcomes,
so gaps are omitted rather than blanked and order follows the listing. -/
theorem collectRows_failure_isolation
    (fetchFn : String → Option (String × String × String)) (A B C : String)
    (rA rC : String × String × String)
    (hA : fetchFn A = some rA) (hB : fetchFn B = none) (hC : fetchFn C = some rC) :
    collectRows fetchFn [A, B, C] = [[rA.1, rA.2.1, rA.2.2], [rC.1, rC.2.1, rC.2.2]] ∧
    (∀ ids : List String, collectRows fetchFn ids =
       ids.filterMap fun mid => (fetchFn mid).map fun r => [r.1, r.2.1, r.2.2]) := by
  constructor
  · obtain ⟨a1, a2, a3⟩ := rA
    obtain ⟨c1, c2, c3⟩ := rC
    simp [collectRows, hA, hB, hC]
  · intro ids
    induction ids with
    | nil => rfl
    | cons mid rest ih =>
      rcases hx : fetchFn mid with - | r
      · simp [collectRows, hx, ih]
      · obtain ⟨x, y, z⟩ := r
        simp [collectRows, hx, ih]

theorem collectRows_failure_isolation_witness :
    collectRows (fun mid => if mid = "A" then some ("sa", "fa", "ba")
      else if mid = "C" then some ("sc", "fc", "bc") else none) ["A", "B", "C"] =
      [["sa", "fa", "ba"], ["sc", "fc", "bc"]] := by
  exact (collectRows_failure_isolation _ "A" "B" "C" ("sa", "fa", "ba")
    ("sc", "fc", "bc") (by decide) (by decide) (by decide)).1

/-- C7: driven by a synthetic page sequence whose pages all carry a truthy
continuation token except a final tokenless page, the Message Lister
returns exactly the concatenation of the identifier lists of the pages up
to and including the tokenless one, in order, ignoring anything after it:
nothing is skipped or duplicated across page boundaries and the loop stops
at the first page without a token. -/
theorem list_message_ids_pagination
    (ps1 : List Page) (plast : Page) (extra : List Page)
    (hcont : ∀ p ∈ ps1, p.nextPageToken.getD "" ≠ "")
    (hstop : plast.nextPageToken.getD "" = "") :
    list_message_ids (ps1 ++ plast :: extra) =
      ((ps1 ++ [plast]).map Page.messageIds).flatten := by
  induction ps1 with
  | nil => simp [list_message_ids, hstop]
  | cons p ps ih =>
    have hp := hcont p (by simp)
    have ih' := ih (fun x hx => hcont x (by simp [hx]))
    simp [list_message_ids, hp, ih']

theorem list_message_ids_pagination_witness :
    list_message_ids [⟨["m1", "m2"], some "tok1"⟩, ⟨["m3"], some "tok2"⟩,
      ⟨["m4"], none⟩] = ["m1", "m2", "m3", "m4"] := by
  have h := list_message_ids_pagination
    [⟨["m1", "m2"], some "tok1"⟩, ⟨["m3"], some "tok2"⟩] ⟨["m4"], none⟩ []
    (by decide) (by decide)
  exact h.trans (by decide)

/-- C1, corrected: with two text/plain leaf children decoding to the
non-empty trimmed texts A and B in that child order, the extractor returns
B, the text of the LAST such child, not the text of the first as the claim
states: each non-empty decode overwrites the recorded candidate. -/
theorem extract_plain_counterexample_last_wins :
    decode_part "QQ==" = some "A" ∧ decode_part "Qg==" = some "B" ∧
    extract_plain_text_from_payload (.mk "multipart/alternative" none []
      (.psome (.pcons (.mk "text/plain" (some "QQ==") [] .pnone)
        (.pcons (.mk "text/plain" (some "Qg==") [] .pnone) .pnil)))) = some "B" ∧
    extract_plain_text_from_payload (.mk "multipart/alternative" none []
      (.psome (.pcons (.mk "text/plain" (some "QQ==") [] .pnone)
        (.pcons (.mk "text/plain" (some "Qg==") [] .pnone) .pnil)))) ≠ some "A" := by
  decide

/-- C1, amended: in the multipart child iteration, the candidate that is
remembered and ultimately returned is the LAST non-empty one in child
order: for every multipart part with at least two text/plain leaf children
whose decoded trimmed texts are non-empty (no nested-multipart
short-circuit firing and all relevant decodes succeeding), the extractor
returns the decoded trimmed text of the latest such child, and likewise the
html candidate kept is the last non-empty one, returned when no plain
candidate exists. -/
theorem extract_last_nonempty_candidate_wins
    (mt : String) (d : Option String) (hdrs : List Header) (l : PayloadList)
    (hmt : strStartsWith mt "multipart/" = true)
    (hmp : ∀ part ∈ l.toList, strStartsWith part.mimeType "multipart/" = true →
      extract_plain_text_from_payload part = some "")
    (hdec : ∀ part ∈ l.toList,
      (part.mimeType = "text/plain" ∨ part.mimeType = "text/html") →
      truthyStr part.bodyData → (decode_part (part.bodyData.getD "")).isSome) :
    (2 ≤ (childPlainTexts l).length →
      extract_plain_text_from_payload (.mk mt d hdrs (.psome l)) =
        some ((childPlainTexts l).getLastD "")) ∧
    (childPlainTexts l = [] → 2 ≤ (childHtmlTexts l).length →
      extract_plain_text_from_payload (.mk mt d hdrs (.psome l)) =
        some ((childHtmlTexts l).getLastD "")) := by
  have h12 := multipart_not_text mt hmt
  have hx : extract_plain_text_from_payload (.mk mt d hdrs (.psome l)) =
      finishLoop (loopParts l "" "") :=
    extract_psome mt d hdrs l (fun hq => h12.1 hq.1) (fun hq => h12.2 hq.1)
  rw [loopParts_no_short l "" "" hmp hdec, candFold_eq] at hx
  constructor
  · intro hlen
    have hne : childPlainTexts l ≠ [] := by
      intro hnil; rw [hnil] at hlen; simp at hlen
    have hlast : (childPlainTexts l).getLastD "" ≠ "" :=
      getLastD_ne_empty _ "" hne (childPlainTexts_ne_empty l)
    rw [hx, finishLoop, if_pos hlast]
  · intro hnil hlen
    have hne : childHtmlTexts l ≠ [] := by
      intro hnil'; rw [hnil'] at hlen; simp at hlen
    have hlast : (childHtmlTexts l).getLastD "" ≠ "" :=
      getLastD_ne_empty _ "" hne (childHtmlTexts_ne_empty l)
    rw [hx, hnil, finishLoop, if_neg (fun h => h rfl), if_pos hlast]

theorem extract_last_nonempty_candidate_wins_witness :
    extract_plain_text_from_payload (.mk "multipart/mixed" none []
      (.psome (.pcons (.mk "text/plain" (some "QQ==") [] .pnone)
        (.pcons (.mk "text/plain" (some "Qg==") [] .pnone) .pnil)))) = some "B" := by
  have h := (extract_last_nonempty_candidate_wins "multipart/mixed" none []
    (.pcons (.mk "text/plain" (some "QQ==") [] .pnone)
      (.pcons (.mk "text/plain" (some "Qg==") [] .pnone) .pnil))
    (by decide) (by decide) (by decide)).1 (by decide)
  exact h.trans (by decide)

/-- C2: in the multipart child iteration, as soon as a child whose media
type starts with multipart/ is reached whose recursive extraction yields a
non-empty string, that string is returned immediately: no later sibling is
examined and the candidates accumulated from earlier siblings are
discarded, whatever they were. -/
theorem extract_nested_multipart_short_circuit
    (mt : String) (d : Option String) (hdrs : List Header)
    (l1 : PayloadList) (c : Payload) (l2 : PayloadList) (pc hc s : String)
    (hmt : strStartsWith mt "multipart/" = true)
    (hpre : loopParts l1 "" "" = some (.inr (pc, hc)))
    (hcm : strStartsWith c.mimeType "multipart/" = true)
    (hsub : extract_plain_text_from_payload c = some s)
    (hne : s ≠ "") :
    extract_plain_text_from_payload
      (.mk mt d hdrs (.psome (l1.append (.pcons c l2)))) = some s := by
  have h12 := multipart_not_text mt hmt
  rw [extract_psome mt d hdrs _ (fun hq => h12.1 hq.1) (fun hq => h12.2 hq.1)]
  rw [loopParts_append l1 (.pcons c l2) "" "", hpre]
  simp only [seqLoop]
  rw [loopParts, if_pos hcm, hsub]
  simp [finishLoop, hne]

theorem extract_nested_multipart_short_circuit_witness :
    extract_plain_text_from_payload (.mk "multipart/mixed" none []
      (.psome (.pcons
        (.mk "multipart/alternative" none []
          (.psome (.pcons (.mk "text/plain" (some "QQ==") [] .pnone) .pnil)))
        (.pcons (.mk "text/plain" (some "Qg==") [] .pnone) .pnil)))) = some "A" := by
  exact extract_nested_multipart_short_circuit "multipart/mixed" none [] .pnil
    (.mk "multipart/alternative" none []
      (.psome (.pcons (.mk "text/plain" (some "QQ==") [] .pnone) .pnil)))
    (.pcons (.mk "text/plain" (some "Qg==") [] .pnone) .pnil) "" "" "A"
    (by decide) (by decide) (by decide) (by decide) (by decide)

/-- C3: for a multipart part whose walk completes without a nested
multipart yielding text and with all decodes succeeding, the extractor
prefers the plain candidate, falls back to the html candidate only when no
non-empty plain candidate exists, and returns the empty string when
neither exists; in particular whenever some text/plain leaf child yields a
non-empty trimmed text, the returned body is that plain text and not the
stripped HTML. -/
theorem extract_prefers_plain_over_html
    (mt : String) (d : Option String) (hdrs : List Header) (l : PayloadList)
    (hmt : strStartsWith mt "multipart/" = true)
    (hmp : ∀ part ∈ l.toList, strStartsWith part.mimeType "multipart/" = true →
      extract_plain_text_from_payload part = some "")
    (hdec : ∀ part ∈ l.toList,
      (part.mimeType = "text/plain" ∨ part.mimeType = "text/html") →
      truthyStr part.bodyData → (decode_part (part.bodyData.getD "")).isSome) :
    extract_plain_text_from_payload (.mk mt d hdrs (.psome l)) =
      some (if (childPlainTexts l).getLastD "" ≠ "" then (childPlainTexts l).getLastD ""
            else if (childHtmlTexts l).getLastD "" ≠ "" then (childHtmlTexts l).getLastD ""
            else "") ∧
    (childPlainTexts l ≠ [] →
      extract_plain_text_from_payload (.mk mt d hdrs (.psome l)) =
        some ((childPlainTexts l).getLastD "")) := by
  have h12 := multipart_not_text mt hmt
  have hx : extract_plain_text_from_payload (.mk mt d hdrs (.psome l)) =
      finishLoop (loopParts l "" "") :=
    extract_psome mt d hdrs l (fun hq => h12.1 hq.1) (fun hq => h12.2 hq.1)
  rw [loopParts_no_short l "" "" hmp hdec, candFold_eq] at hx
  constructor
  · rw [hx, finishLoop]
  · intro hne
    have hlast : (childPlainTexts l).getLastD "" ≠ "" :=
      getLastD_ne_empty _ "" hne (childPlainTexts_ne_empty l)
    rw [hx, finishLoop, if_pos hlast]

theorem extract_prefers_plain_over_html_witness :
    extract_plain_text_from_payload (.mk "multipart/alternative" none []
      (.psome (.pcons (.mk "text/html" (some "Qg==") [] .pnone)
        (.pcons (.mk "text/plain" (some "QQ==") [] .pnone) .pnil)))) = some "A" := by
  have h := (extract_prefers_plain_over_html "multipart/alternative" none []
    (.pcons (.mk "text/html" (some "Qg==") [] .pnone)
      (.pcons (.mk "text/plain" (some "QQ==") [] .pnone) .pnil))
    (by decide) (by decide) (by decide)).2 (by decide)
  exact h.trans (by decide)

/-- C5, corrected: a part whose media type is image/png, which neither
starts with multipart/ nor is a text leaf, still has its children walked
because the code tests only the presence of the parts key: the extractor
returns the text of the text/plain child, not the empty string the claim
predicts. -/
theorem extract_walks_children_of_nonmultipart :
    strStartsWith "image/png" "multipart/" = false ∧
    extract_plain_text_from_payload (.mk "image/png" none []
      (.psome (.pcons (.mk "text/plain" (some "QQ==") [] .pnone) .pnil))) = some "A" ∧
    extract_plain_text_from_payload (.mk "image/png" none []
      (.psome (.pcons (.mk "text/plain" (some "QQ==") [] .pnone) .pnil))) ≠ some "" := by
  decide

/-- C5, amended: the child-iteration step applies exactly to parts that
carry a parts list: a part that is not a text/plain or text/html leaf with
an inline body and has no parts list yields the empty string, and when a
parts list is present the children are walked in the same way regardless of
the part's media type. -/
theorem extract_children_iff_parts_key :
    (∀ (mt : String) (d : Option String) (hdrs : List Header),
       ¬(mt = "text/plain" ∧ truthyStr d) → ¬(mt = "text/html" ∧ truthyStr d) →
       extract_plain_text_from_payload (.mk mt d hdrs .pnone) = some "") ∧
    (∀ (mt1 mt2 : String) (d1 d2 : Option String) (hdrs1 hdrs2 : List Header)
       (l : PayloadList),
       ¬(mt1 = "text/plain" ∧ truthyStr d1) → ¬(mt1 = "text/html" ∧ truthyStr d1) →
       ¬(mt2 = "text/plain" ∧ truthyStr d2) → ¬(mt2 = "text/html" ∧ truthyStr d2) →
       extract_plain_text_from_payload (.mk mt1 d1 hdrs1 (.psome l)) =
         extract_plain_text_from_payload (.mk mt2 d2 hdrs2 (.psome l))) := by
  constructor
  · intro mt d hdrs h1 h2
    rw [extract_plain_text_from_payload, if_neg h1, if_neg h2]
  · intro mt1 mt2 d1 d2 hdrs1 hdrs2 l h1 h2 h3 h4
    rw [extract_psome mt1 d1 hdrs1 l h1 h2, extract_psome mt2 d2 hdrs2 l h3 h4]

theorem extract_children_iff_parts_key_witness :
    extract_plain_text_from_payload (.mk "image/png" none [] .pnone) = some "" ∧
    extract_plain_text_from_payload (.mk "image/png" none []
        (.psome (.pcons (.mk "text/plain" (some "QQ==") [] .pnone) .pnil))) =
      extract_plain_text_from_payload (.mk "application/pdf" (some "x") []
        (.psome (.pcons (.mk "text/plain" (some "QQ==") [] .pnone) .pnil))) := by
  constructor
  · exact extract_children_iff_parts_key.1 "image/png" none [] (by decide) (by decide)
  · exact extract_children_iff_parts_key.2 "image/png" "application/pdf" none (some "x")
      [] [] (.pcons (.mk "text/plain" (some "QQ==") [] .pnone) .pnil)
      (by decide) (by decide) (by decide) (by decide)

/-- C8: when the Body Extractor yields the empty string for a message's
payload, the returned body is the message's preview snippet, trimmed and
substituted without any further emptiness check (it may itself be empty);
when the extractor yields text that is non-empty after the trim, that text
is the body and the snippet plays no part in the result. -/
theorem fetch_message_snippet_fallback (msg : Message) :
    (extract_plain_text_from_payload (msg.payload.getD emptyPayload) = some "" →
       fetch_message_fields msg =
         some (get_header (msg.payload.getD emptyPayload).headers "Subject",
               get_header (msg.payload.getD emptyPayload).headers "From",
               pyStrip (msg.snippet.getD ""))) ∧
    (∀ s : String, extract_plain_text_from_payload (msg.payload.getD emptyPayload) = some s →
       pyStrip s ≠ "" →
       fetch_message_fields msg =
         some (get_header (msg.payload.getD emptyPayload).headers "Subject",
               get_header (msg.payload.getD emptyPayload).headers "From",
               pyStrip s)) := by
  constructor
  · intro hz
    rw [fetch_message_fields, hz]
    simp [show pyStrip "" = "" from by decide]
  · intro s hs hne
    rw [fetch_message_fields, hs]
    simp [hne]

theorem fetch_message_snippet_fallback_witness :
    fetch_message_fields ⟨some (.mk "multipart/mixed" none
        [⟨some "Subject", some "S"⟩] (.psome .pnil)), some " snip "⟩ =
      some ("S", "", "snip") ∧
    fetch_message_fields ⟨some (.mk "text/plain" (some "QQ==") [] .pnone),
        some "ignored"⟩ = some ("", "", "A") := by
  constructor
  · have h := (fetch_message_snippet_fallback ⟨some (.mk "multipart/mixed" none
      [⟨some "Subject", some "S"⟩] (.psome .pnil)), some " snip "⟩).1 (by decide)
    exact h.trans (by decide)
  · have h := (fetch_message_snippet_fallback ⟨some (.mk "text/plain" (some "QQ==")
      [] .pnone), some "ignored"⟩).2 "A" (by decide) (by decide)
    exact h.trans (by decide)
